import Mathlib

/-!
Verification of the algebraic core of mshadow (`mshadow/base.h`): element-wise
operators (`op`), destination-update savers (`sv`), and reduction operators
(`red`), together with the per-type limits used as reduction identities.

The C++ templates are generic over a numeric type `DType`; the embedding keeps
that genericity via type-class parameters.  Floating-point types (`float`,
`double`) are modelled by exact rational values, with the sets of finite
representable values described separately per IEEE-754; `int` is modelled by
integers in the 32-bit two's-complement range.  `default_real_t` (= `float`)
values such as the BLAS constants are modelled in `ℚ`.
-/

namespace mshadow

namespace op

/-- Embedding of `op::mul::Map(a, b) = a * b` (base.h, struct `mul`). -/
def mul.Map {α : Type} [Mul α] (a b : α) : α :=
  a * b

/-- Embedding of `op::plus::Map(a, b) = a + b` (base.h, struct `plus`). -/
def plus.Map {α : Type} [Add α] (a b : α) : α :=
  a + b

/-- Embedding of `op::minus::Map(a, b) = a - b` (base.h, struct `minus`). -/
def minus.Map {α : Type} [Sub α] (a b : α) : α :=
  a - b

/-- Embedding of `op::div::Map(a, b) = a / b` (base.h, struct `div`). -/
def div.Map {α : Type} [Div α] (a b : α) : α :=
  a / b

/-- Embedding of `op::right::Map(a, b) = b` (base.h, struct `right`). -/
def right.Map {α : Type} (a b : α) : α :=
  b

/-- Embedding of `op::identity::Map(a) = a` (base.h, struct `identity`). -/
def identity.Map {α : Type} (a : α) : α :=
  a

end op

namespace sv

/-- Embedding of `sv::saveto::Save(a, b)`: `a = b`.  The C++ code mutates `a` in place; the
embedding returns the new value of `a`. -/
def saveto.Save {α : Type} (a b : α) : α :=
  b

/-- Embedding of `sv::saveto::AlphaBLAS() = 1.0f` (`default_real_t` modelled in `ℚ`). -/
def saveto.AlphaBLAS : ℚ := 1

/-- Embedding of `sv::saveto::BetaBLAS() = 0.0f`. -/
def saveto.BetaBLAS : ℚ := 0

/-- Embedding of `sv::saveto`'s `typedef op::right OPType`. -/
def saveto.OPType {α : Type} (a b : α) : α :=
  op.right.Map a b

/-- Embedding of `sv::plusto::Save(a, b)`: `a += b`. -/
def plusto.Save {α : Type} [Add α] (a b : α) : α :=
  a + b

/-- Embedding of `sv::plusto::AlphaBLAS() = 1.0f`. -/
def plusto.AlphaBLAS : ℚ := 1

/-- Embedding of `sv::plusto::BetaBLAS() = 1.0f`. -/
def plusto.BetaBLAS : ℚ := 1

/-- Embedding of `sv::plusto`'s `typedef op::plus OPType`. -/
def plusto.OPType {α : Type} [Add α] (a b : α) : α :=
  op.plus.Map a b

/-- Embedding of `sv::minusto::Save(a, b)`: `a -= b`. -/
def minusto.Save {α : Type} [Sub α] (a b : α) : α :=
  a - b

/-- Embedding of `sv::minusto::AlphaBLAS() = -1.0f` (base.h line 214). -/
def minusto.AlphaBLAS : ℚ := -1

/-- Embedding of `sv::minusto::BetaBLAS() = 1.0f` (base.h line 216). -/
def minusto.BetaBLAS : ℚ := 1

/-- Embedding of `sv::minusto`'s `typedef op::minus OPType`. -/
def minusto.OPType {α : Type} [Sub α] (a b : α) : α :=
  op.minus.Map a b

/-- Embedding of `sv::multo::Save(a, b)`: `a *= b`. -/
def multo.Save {α : Type} [Mul α] (a b : α) : α :=
  a * b

/-- Embedding of `sv::multo`'s `typedef op::mul OPType`. -/
def multo.OPType {α : Type} [Mul α] (a b : α) : α :=
  op.mul.Map a b

/-- Embedding of `sv::divto::Save(a, b)`: `a /= b`. -/
def divto.Save {α : Type} [Div α] (a b : α) : α :=
  a / b

/-- Embedding of `sv::divto`'s `typedef op::div OPType`. -/
def divto.OPType {α : Type} [Div α] (a b : α) : α :=
  op.div.Map a b

/-- Tags for the five saver structs declared in namespace `sv` of base.h. -/
inductive SaverTag : Type
  | saveto
  | plusto
  | minusto
  | multo
  | divto
deriving DecidableEq

/-- Which `AlphaBLAS()`/`BetaBLAS()` member functions each saver struct in
base.h declares, and their returned values: `saveto` declares `(1, 0)`
(lines 186, 188), `plusto` declares `(1, 1)` (lines 200, 202), `minusto`
declares `(-1, 1)` (lines 214, 216); `multo` and `divto` declare none. -/
def blasConstants : SaverTag → Option (ℚ × ℚ)
  | .saveto => some (saveto.AlphaBLAS, saveto.BetaBLAS)
  | .plusto => some (plusto.AlphaBLAS, plusto.BetaBLAS)
  | .minusto => some (minusto.AlphaBLAS, minusto.BetaBLAS)
  | .multo => none
  | .divto => none

end sv

namespace red

/-- Embedding of `red::sum::Reduce(dst, src)`: `dst += src` (the embedding returns the new
value of `dst`). -/
def sum.Reduce {α : Type} [Add α] (dst src : α) : α :=
  dst + src

/-- Embedding of `red::sum::PartialGrad(redres, redsrc) = 1`. -/
def sum.PartialGrad {α : Type} [One α] (redres redsrc : α) : α :=
  1

/-- Embedding of `red::sum::InitValue() = 0`. -/
def sum.InitValue {α : Type} [Zero α] : α :=
  0

namespace limits

/-- The value of `FLT_MAX` from `<cfloat>` on an IEEE-754 platform:
the largest finite single-precision value, `(2^24 - 1) * 2^104`. -/
def FLT_MAX : ℚ := (2 ^ 24 - 1) * 2 ^ (104 : ℤ)

/-- The value of `DBL_MAX` from `<cfloat>` on an IEEE-754 platform:
the largest finite double-precision value, `(2^53 - 1) * 2^971`. -/
def DBL_MAX : ℚ := (2 ^ 53 - 1) * 2 ^ (971 : ℤ)

/-- The value of `INT_MIN` from `<climits>` on a 32-bit-`int` platform. -/
def INT_MIN : ℤ := -2 ^ 31

/-- Embedding of `red::limits::MinValue<float>() = -FLT_MAX` (base.h line 269). -/
def MinValue_float : ℚ := -FLT_MAX

/-- Embedding of `red::limits::MinValue<double>() = -DBL_MAX` (base.h line 273). -/
def MinValue_double : ℚ := -DBL_MAX

/-- Embedding of `red::limits::MinValue<int>() = INT_MIN` (base.h line 277). -/
def MinValue_int : ℤ := INT_MIN

end limits

/-- Embedding of `red::maximum::Reduce(dst, src)`: `dst = max(dst, src)`. -/
def maximum.Reduce {α : Type} [LinearOrder α] (dst src : α) : α :=
  max dst src

/-- Embedding of `red::maximum::PartialGrad(redres, redsrc) = (redres == redsrc ? 1 : 0)`. -/
def maximum.PartialGrad {α : Type} [DecidableEq α] [Zero α] [One α]
    (redres redsrc : α) : α :=
  if redres = redsrc then 1 else 0

/-- Embedding of `red::maximum::InitValue<float>() = limits::MinValue<float>()`. -/
def maximum.InitValue_float : ℚ := limits.MinValue_float

/-- Embedding of `red::maximum::InitValue<double>() = limits::MinValue<double>()`. -/
def maximum.InitValue_double : ℚ := limits.MinValue_double

/-- Embedding of `red::maximum::InitValue<int>() = limits::MinValue<int>()`. -/
def maximum.InitValue_int : ℤ := limits.MinValue_int

end red

/-- Modelled from the spec: the set of finite binary floating-point values
with mantissa below `mb` and exponent in `[elo, ehi]`, as exact rationals.
With `mb = 2^24, elo = -149, ehi = 104` this is exactly the set of finite
IEEE-754 single-precision values; with `mb = 2^53, elo = -1074, ehi = 971`
the finite double-precision values. -/
def repFinite (mb : ℕ) (elo ehi : ℤ) (q : ℚ) : Prop :=
  ∃ (s : Bool) (m : ℕ) (e : ℤ),
    m < mb ∧ elo ≤ e ∧ e ≤ ehi ∧ q = (cond s (-1) 1) * m * (2 : ℚ) ^ e

/-- Modelled from the spec: the finite IEEE-754 single-precision values. -/
def singleFinite (q : ℚ) : Prop :=
  repFinite (2 ^ 24) (-149) 104 q

/-- Modelled from the spec: the finite IEEE-754 double-precision values. -/
def doubleFinite (q : ℚ) : Prop :=
  repFinite (2 ^ 53) (-1074) 971 q

/-- Modelled from the spec: the values representable by a 32-bit
two's-complement `int`. -/
def intRepresentable (n : ℤ) : Prop :=
  -2 ^ 31 ≤ n ∧ n < 2 ^ 31

/-- Every value in `repFinite mb elo ehi` is at least `-((mb - 1) * 2 ^ ehi)`,
the negated largest member of the set. -/
lemma repFinite_lower {mb : ℕ} {elo ehi : ℤ} {q : ℚ}
    (h : repFinite mb elo ehi q) : -(((mb : ℚ) - 1) * 2 ^ ehi) ≤ q := by
  obtain ⟨s, m, e, hm, -, he2, rfl⟩ := h
  have hmq : (m : ℚ) ≤ (mb : ℚ) - 1 := by
    have h1 : (m : ℚ) + 1 ≤ (mb : ℚ) := by exact_mod_cast Nat.succ_le_of_lt hm
    linarith
  have hpow : (2 : ℚ) ^ e ≤ 2 ^ ehi := by
    gcongr
    norm_num
  have hpow0 : (0 : ℚ) < 2 ^ e := by positivity
  have hmb0 : (0 : ℚ) ≤ (mb : ℚ) - 1 :=
    le_trans (Nat.cast_nonneg m) hmq
  have hmul : (m : ℚ) * 2 ^ e ≤ ((mb : ℚ) - 1) * 2 ^ ehi :=
    mul_le_mul hmq hpow (le_of_lt hpow0) hmb0
  have hnn : (0 : ℚ) ≤ (m : ℚ) * 2 ^ e := by positivity
  cases s with
  | false => simp only [cond]; linarith
  | true => simp only [cond]; linarith

/-- The initial accumulator is a lower bound of a left fold of `max`. -/
lemma init_le_foldl_max {α : Type} [LinearOrder α] :
    ∀ (l : List α) (init : α), init ≤ List.foldl max init l := by
  intro l
  induction l with
  | nil => intro init; simp
  | cons a t ih =>
      intro init
      exact le_trans (le_max_left init a) (ih (max init a))

/-- Every list element is a lower bound of a left fold of `max`. -/
lemma mem_le_foldl_max {α : Type} [LinearOrder α] :
    ∀ (l : List α) (init x : α), x ∈ l → x ≤ List.foldl max init l := by
  intro l
  induction l with
  | nil => intro init x hx; cases hx
  | cons a t ih =>
      intro init x hx
      rcases List.mem_cons.mp hx with h | h
      · subst h
        exact le_trans (le_max_right init x) (init_le_foldl_max t (max init x))
      · exact ih (max init a) x h

/-- A left fold of `max` is either a list element or the initial accumulator. -/
lemma foldl_max_mem_or_eq {α : Type} [LinearOrder α] :
    ∀ (l : List α) (init : α),
      List.foldl max init l ∈ l ∨ List.foldl max init l = init := by
  intro l
  induction l with
  | nil => intro init; right; rfl
  | cons a t ih =>
      intro init
      rcases ih (max init a) with h | h
      · exact Or.inl (List.mem_cons_of_mem a h)
      · rcases max_choice init a with hc | hc
        · right; rw [List.foldl_cons, h, hc]
        · left; rw [List.foldl_cons, h, hc]; exact List.mem_cons_self a t

/-- A left fold of `max` over a non-empty list whose elements all dominate the
initial accumulator is the true maximum: a member of the list that bounds
every member. -/
lemma foldl_max_isTrueMax {α : Type} [LinearOrder α] (l : List α) (init : α)
    (hne : l ≠ []) (hinit : ∀ x ∈ l, init ≤ x) :
    List.foldl max init l ∈ l ∧ ∀ x ∈ l, x ≤ List.foldl max init l := by
  refine ⟨?_, fun x hx => mem_le_foldl_max l init x hx⟩
  rcases foldl_max_mem_or_eq l init with h | h
  · exact h
  · obtain ⟨x0, hx0⟩ := List.exists_mem_of_ne_nil l hne
    have h1 : init ≤ x0 := hinit x0 hx0
    have h2 : x0 ≤ List.foldl max init l := mem_le_foldl_max l init x0 hx0
    have : List.foldl max init l = x0 := le_antisymm (by rw [h]; exact h1) h2
    exact this ▸ hx0

/-- A left fold of `red::sum::Reduce` adds the list sum to the accumulator. -/
lemma foldl_sumReduce {α : Type} [AddCommMonoid α] :
    ∀ (l : List α) (a : α), List.foldl red.sum.Reduce a l = a + l.sum := by
  intro l
  induction l with
  | nil => intro a; simp [red.sum.Reduce]
  | cons x t ih =>
      intro a
      rw [List.foldl_cons, ih (red.sum.Reduce a x), List.sum_cons]
      simp [red.sum.Reduce, add_assoc]

/-- Embedding of `red::maximum::Reduce` is the binary `max`. -/
lemma maximum_Reduce_eq_max {α : Type} [LinearOrder α] :
    @red.maximum.Reduce α _ = max :=
  rfl

/-- Embedding of `MinValue<float>` written with the cast shape used by `repFinite`. -/
lemma MinValue_float_cast_eq :
    red.limits.MinValue_float = -((((2 ^ 24 : ℕ) : ℚ) - 1) * (2 : ℚ) ^ (104 : ℤ)) := by
  unfold red.limits.MinValue_float red.limits.FLT_MAX
  push_cast
  ring

/-- Embedding of `MinValue<double>` written with the cast shape used by `repFinite`. -/
lemma MinValue_double_cast_eq :
    red.limits.MinValue_double = -((((2 ^ 53 : ℕ) : ℚ) - 1) * (2 : ℚ) ^ (971 : ℤ)) := by
  unfold red.limits.MinValue_double red.limits.DBL_MAX
  push_cast
  ring

/-- Every finite single-precision value is at least `MinValue<float>`. -/
lemma MinValue_float_le {q : ℚ} (h : singleFinite q) :
    red.limits.MinValue_float ≤ q := by
  rw [MinValue_float_cast_eq]
  exact repFinite_lower h

/-- Every finite double-precision value is at least `MinValue<double>`. -/
lemma MinValue_double_le {q : ℚ} (h : doubleFinite q) :
    red.limits.MinValue_double ≤ q := by
  rw [MinValue_double_cast_eq]
  exact repFinite_lower h

/-- C1 counterexample: contrary to the claim that `minusto` exposes no
`AlphaBLAS()`/`BetaBLAS()` constants, the `minusto` struct in base.h does
declare them (lines 213-216). -/
theorem saver_blas_counterexample :
    sv.blasConstants sv.SaverTag.minusto ≠ none := by
  simp [sv.blasConstants]

/-- C1 (amended): exactly three of the five savers — `saveto`, `plusto` and
`minusto` — expose `AlphaBLAS()`/`BetaBLAS()` scalar constants (with values
`(1,0)`, `(1,1)` and `(-1,1)` respectively); the remaining savers `multo` and
`divto` expose no such constants. -/
theorem saver_blas_asymmetry :
    sv.blasConstants sv.SaverTag.saveto = some (1, 0) ∧
    sv.blasConstants sv.SaverTag.plusto = some (1, 1) ∧
    sv.blasConstants sv.SaverTag.minusto = some (-1, 1) ∧
    sv.blasConstants sv.SaverTag.multo = none ∧
    sv.blasConstants sv.SaverTag.divto = none :=
  ⟨rfl, rfl, rfl, rfl, rfl⟩

/-- C2: `Limits::MinValue` is exact for each supported type: `MinValue<float>`
is a finite IEEE single-precision value and a lower bound of all of them (the
true single-precision minimum), `MinValue<double>` likewise for double
precision, and `MinValue<int>` is representable in a 32-bit `int` and a lower
bound of the representable range (`INT_MIN`). -/
theorem minValue_exact_minimum :
    (singleFinite red.limits.MinValue_float ∧
      ∀ q : ℚ, singleFinite q → red.limits.MinValue_float ≤ q) ∧
    (doubleFinite red.limits.MinValue_double ∧
      ∀ q : ℚ, doubleFinite q → red.limits.MinValue_double ≤ q) ∧
    (intRepresentable red.limits.MinValue_int ∧
      ∀ n : ℤ, intRepresentable n → red.limits.MinValue_int ≤ n) := by
  refine ⟨⟨⟨true, 16777215, 104, by norm_num, by norm_num, by norm_num, ?_⟩,
      fun q hq => MinValue_float_le hq⟩,
    ⟨⟨true, 9007199254740991, 971, by norm_num, by norm_num, by norm_num, ?_⟩,
      fun q hq => MinValue_double_le hq⟩,
    ⟨⟨le_refl _, by norm_num [red.limits.MinValue_int, red.limits.INT_MIN]⟩,
      fun n hn => hn.1⟩⟩
  · rw [MinValue_float_cast_eq]
    norm_num
  · rw [MinValue_double_cast_eq]
    norm_num

/-- C2 witness: the theorem's lower bounds applied at concrete representable
values. -/
theorem minValue_exact_minimum_witness :
    red.limits.MinValue_float ≤ 1 ∧ red.limits.MinValue_double ≤ 1 ∧
      red.limits.MinValue_int ≤ 0 :=
  ⟨minValue_exact_minimum.1.2 1 ⟨false, 1, 0, by norm_num, by norm_num,
      by norm_num, by simp⟩,
    minValue_exact_minimum.2.1.2 1 ⟨false, 1, 0, by norm_num, by norm_num,
      by norm_num, by simp⟩,
    minValue_exact_minimum.2.2.2 0 ⟨by norm_num, by norm_num⟩⟩

/-- C3: `maximum.InitValue()` is an identity for `maximum.Reduce` on every
representable value of each supported type, and folding `maximum.Reduce` from
`maximum.InitValue()` over any non-empty sequence of representable values
yields the true maximum of the sequence: an element of the sequence that
bounds every element. -/
theorem maximum_init_identity :
    (∀ x : ℚ, singleFinite x →
      red.maximum.Reduce red.maximum.InitValue_float x = x) ∧
    (∀ x : ℚ, doubleFinite x →
      red.maximum.Reduce red.maximum.InitValue_double x = x) ∧
    (∀ x : ℤ, intRepresentable x →
      red.maximum.Reduce red.maximum.InitValue_int x = x) ∧
    (∀ l : List ℚ, l ≠ [] → (∀ x ∈ l, singleFinite x) →
      List.foldl red.maximum.Reduce red.maximum.InitValue_float l ∈ l ∧
        ∀ x ∈ l, x ≤ List.foldl red.maximum.Reduce red.maximum.InitValue_float l) := by
  refine ⟨fun x hx => max_eq_right (MinValue_float_le hx),
    fun x hx => max_eq_right (MinValue_double_le hx),
    fun x hx => max_eq_right hx.1,
    fun l hne hrep => ?_⟩
  rw [maximum_Reduce_eq_max]
  exact foldl_max_isTrueMax l red.maximum.InitValue_float hne
    (fun x hx => MinValue_float_le (hrep x hx))

/-- C3 witness: the identity and fold statements applied at concrete
representable inputs. -/
theorem maximum_init_identity_witness :
    red.maximum.Reduce red.maximum.InitValue_float 0 = 0 ∧
      (List.foldl red.maximum.Reduce red.maximum.InitValue_float [1] ∈ [(1 : ℚ)] ∧
        ∀ x ∈ [(1 : ℚ)], x ≤ List.foldl red.maximum.Reduce red.maximum.InitValue_float [1]) :=
  ⟨maximum_init_identity.1 0 ⟨false, 0, 0, by norm_num, by norm_num,
      by norm_num, by simp⟩,
    maximum_init_identity.2.2.2 [1] (by simp)
      (fun x hx => by
        rw [List.mem_singleton.mp hx]
        exact ⟨false, 1, 0, by norm_num, by norm_num, by norm_num, by simp⟩)⟩

/-- C4: `maximum.PartialGrad(r, s)` is `1` when `s == r` and `0` otherwise;
ties are not split: in the sequence `[5, 1, 5]`, whose fold from
`maximum.InitValue()` is `5`, both tied maxima receive full gradient `1`
(total mapped gradient `2`, not `1`). -/
theorem maximum_partialGrad_spec :
    (∀ r s : ℚ, (s = r → red.maximum.PartialGrad r s = 1) ∧
      (s ≠ r → red.maximum.PartialGrad r s = 0)) ∧
    (List.map (red.maximum.PartialGrad (5 : ℚ)) [5, 1, 5]).sum = 2 ∧
    List.foldl red.maximum.Reduce red.maximum.InitValue_float [5, 1, 5] = 5 := by
  refine ⟨fun r s => ⟨fun h => ?_, fun h => ?_⟩, ?_, ?_⟩
  · rw [red.maximum.PartialGrad, if_pos h.symm]
  · rw [red.maximum.PartialGrad, if_neg (fun hrs => h hrs.symm)]
  · norm_num [red.maximum.PartialGrad]
  · rw [maximum_Reduce_eq_max]
    have h5 : red.maximum.InitValue_float ≤ 5 :=
      MinValue_float_le ⟨false, 5, 0, by norm_num, by norm_num, by norm_num, by simp⟩
    simp only [List.foldl_cons, List.foldl_nil]
    rw [max_eq_right h5]
    norm_num [max_def]

/-- C4 witness: the gradient rule applied at concrete equal and unequal
inputs. -/
theorem maximum_partialGrad_spec_witness :
    red.maximum.PartialGrad (5 : ℚ) 5 = 1 ∧ red.maximum.PartialGrad (5 : ℚ) 2 = 0 :=
  ⟨(maximum_partialGrad_spec.1 5 5).1 rfl,
    (maximum_partialGrad_spec.1 5 2).2 (by norm_num)⟩

/-- C5: for every saver, `Save(dest, src)` leaves `dest` equal to
`OPType::Map(dest_old, src)` where `OPType` is the saver's declared operator
(`right`, `plus`, `minus`, `mul`, `div` respectively). -/
theorem saver_optype_equiv :
    ∀ a b : ℚ,
      sv.saveto.Save a b = sv.saveto.OPType a b ∧
        sv.saveto.OPType a b = op.right.Map a b ∧
      sv.plusto.Save a b = sv.plusto.OPType a b ∧
        sv.plusto.OPType a b = op.plus.Map a b ∧
      sv.minusto.Save a b = sv.minusto.OPType a b ∧
        sv.minusto.OPType a b = op.minus.Map a b ∧
      sv.multo.Save a b = sv.multo.OPType a b ∧
        sv.multo.OPType a b = op.mul.Map a b ∧
      sv.divto.Save a b = sv.divto.OPType a b ∧
        sv.divto.OPType a b = op.div.Map a b :=
  fun a b => ⟨rfl, rfl, rfl, rfl, rfl, rfl, rfl, rfl, rfl, rfl⟩

/-- C6: folding `sum.Reduce` from `sum.InitValue()` (which is `0`) over any
finite sequence yields the arithmetic sum; `sum.Reduce` is commutative and
associative, the fold is invariant under permutation of the sequence, and the
sequence `[3, 1, 4, 1, 5]` reduces to `14`. -/
theorem sum_fold_spec :
    (∀ l : List ℚ, List.foldl red.sum.Reduce red.sum.InitValue l = l.sum) ∧
    (∀ a b : ℚ, red.sum.Reduce a b = red.sum.Reduce b a) ∧
    (∀ a b c : ℚ, red.sum.Reduce (red.sum.Reduce a b) c
      = red.sum.Reduce a (red.sum.Reduce b c)) ∧
    (∀ l1 l2 : List ℚ, l1.Perm l2 →
      List.foldl red.sum.Reduce red.sum.InitValue l1
        = List.foldl red.sum.Reduce red.sum.InitValue l2) ∧
    List.foldl red.sum.Reduce red.sum.InitValue [(3 : ℚ), 1, 4, 1, 5] = 14 := by
  have hfold : ∀ l : List ℚ,
      List.foldl red.sum.Reduce red.sum.InitValue l = l.sum := by
    intro l
    rw [foldl_sumReduce]
    simp [red.sum.InitValue]
  refine ⟨hfold, fun a b => add_comm a b, fun a b c => add_assoc a b c,
    fun l1 l2 hp => ?_, ?_⟩
  · rw [hfold, hfold, hp.sum_eq]
  · rw [hfold]
    norm_num

/-- C6 witness: permutation invariance applied at a concrete pair of
permuted sequences. -/
theorem sum_fold_spec_witness :
    List.foldl red.sum.Reduce red.sum.InitValue [(3 : ℚ), 1, 4, 1, 5]
      = List.foldl red.sum.Reduce red.sum.InitValue [(1 : ℚ), 3, 4, 1, 5] :=
  sum_fold_spec.2.2.2.1 [(3 : ℚ), 1, 4, 1, 5] [(1 : ℚ), 3, 4, 1, 5]
    (List.Perm.swap 1 3 [4, 1, 5])

/-- C7: the operator maps compute the stated arithmetic: `mul` is `a * b`,
`plus` is `a + b`, `minus` is `a - b`, `div` is `a / b`, `right` selects `b`,
and `identity` returns its argument. -/
theorem op_map_spec :
    ∀ a b : ℚ,
      op.mul.Map a b = a * b ∧ op.plus.Map a b = a + b ∧
      op.minus.Map a b = a - b ∧ op.div.Map a b = a / b ∧
      op.right.Map a b = b ∧ op.identity.Map a = a :=
  fun a b => ⟨rfl, rfl, rfl, rfl, rfl, rfl⟩

/-- C9: `minusto` exposes `AlphaBLAS() = -1` and `BetaBLAS() = 1`, and its
`Save` satisfies the BLAS fused form
`dest = AlphaBLAS()*src + BetaBLAS()*dest_old`. -/
theorem minusto_blas_fused :
    sv.minusto.AlphaBLAS = -1 ∧ sv.minusto.BetaBLAS = 1 ∧
    ∀ dest src : ℚ,
      sv.minusto.Save dest src
        = sv.minusto.AlphaBLAS * src + sv.minusto.BetaBLAS * dest := by
  refine ⟨rfl, rfl, fun dest src => ?_⟩
  show dest - src = -1 * src + 1 * dest
  ring

/-- C10: `sum.Reduce` and `plusto.Save` compute the same update, namely
`dst_old + src`. -/
theorem sumReduce_plustoSave_equiv :
    ∀ dst src : ℚ,
      red.sum.Reduce dst src = sv.plusto.Save dst src ∧
        sv.plusto.Save dst src = dst + src :=
  fun dst src => ⟨rfl, rfl⟩

end mshadow
